import Mathlib

/-!
# Verification of the reddit_collector pipeline

Shallow embedding of `reddit_collector.py`: the per-channel statistics
accumulator, the result fold (`finalize_delegate_result`), the delegate
reaper (`join_delegates`), the page hooks (`process_post_list`,
`process_comment_list`, `process_article`), the paginator
(`paginate_and_process`), the main driver, the channel finalization
(ratios and top-K tables) and the dynamic-schema TSV report writer.

Python dicts are modelled as insertion-ordered association lists and
exceptions as `Except`.  Sentiment floats become exact rationals;
timestamps and ages become integers (epoch seconds: the float
subtraction and threshold comparisons the code performs are exact on
integral second values).
-/

namespace RedditCollector

/-! ## Association lists: Python `dict` with insertion order -/

/-- `k in d` for a Python dict modelled as an association list. -/
def alContains (m : List (String × Nat)) (k : String) : Bool :=
  m.any (fun p => p.1 == k)

/-- `d[k] += c` when `k` is present (first binding), `d[k] = c` otherwise:
the combined effect of the `if match in d: d[match] += c else: d[match] = c`
pattern used throughout `finalize_delegate_result`.  New keys are appended
at the end, preserving Python's insertion order. -/
def alBump : List (String × Nat) → String → Nat → List (String × Nat)
  | [], k, c => [(k, c)]
  | (k', v) :: rest, k, c =>
      if k' = k then (k', v + c) :: rest else (k', v) :: alBump rest k c

/-- Read a count out of a dict, `0` when the key is absent. -/
def alGet (m : List (String × Nat)) (k : String) : Nat :=
  match m.find? (fun p => p.1 == k) with
  | some p => p.2
  | none => 0

/-! ## The per-channel accumulator (`stats['subreddit'][name]`) -/

/-- The numeric counters of `subreddit_stats_template`. -/
structure SubStats where
  negative_polarity_ratio : Rat
  num_awards : Int
  num_comment_candidates : Nat
  num_comments : Int
  num_interactions : Nat
  num_negative : Nat
  num_neutral : Nat
  num_positive : Nat
  num_posts : Nat
  num_selftexts : Nat
  num_ups : Int
  num_urls : Nat
  positive_polarity_ratio : Rat
deriving Repr, DecidableEq

/-- All fields of `subreddit_stats_template` start at `0`. -/
def subreddit_stats_template : SubStats :=
  { negative_polarity_ratio := 0
    num_awards := 0
    num_comment_candidates := 0
    num_comments := 0
    num_interactions := 0
    num_negative := 0
    num_neutral := 0
    num_positive := 0
    num_posts := 0
    num_selftexts := 0
    num_ups := 0
    num_urls := 0
    positive_polarity_ratio := 0 }

/-- The `_tmp` working zone of a channel's stats entry. -/
structure TmpStats where
  comment_candidates : List String
  entities : List (String × String)
  more_comments : List String
  words_num_total : List (String × Nat)
  words_num_interactions : List (String × Nat)
  words_num_negative_interactions : List (String × Nat)
  words_num_neutral_interactions : List (String × Nat)
  words_num_positive_interactions : List (String × Nat)
deriving Repr, DecidableEq

def initTmpStats : TmpStats :=
  { comment_candidates := []
    entities := []
    more_comments := []
    words_num_total := []
    words_num_interactions := []
    words_num_negative_interactions := []
    words_num_neutral_interactions := []
    words_num_positive_interactions := [] }

/-- One channel's mutable state, together with the run-wide pieces the
hooks touch: the delegator's outstanding dispatch targets (the text blobs
handed to `process_text_blob` threads) and the script-level status-code
histogram. -/
structure RunState where
  stats : SubStats
  tmp : TmpStats
  dispatched : List String
  statusCodes : List (Nat × Nat)
deriving Repr, DecidableEq

/-- A channel's state right after the `stats['subreddit'][name] = ...`
initialization in `__main__`. -/
def initRunState : RunState :=
  { stats := subreddit_stats_template
    tmp := initTmpStats
    dispatched := []
    statusCodes := [] }

/-! ## Enrichment results and the fold (`finalize_delegate_result`) -/

/-- The tuple `(blob, word_stats, entities, polarity, subjectivity)` a
worker puts on the delegator queue; sentiment floats become rationals,
`None` becomes `none`. -/
structure DelegateResult where
  blob : String
  word_stats : List (String × Nat)
  entities : List (String × String)
  polarity : Option Rat
  subjectivity : Option Rat
deriving Repr, DecidableEq

/-- The allow-filters loaded from `--exclusive-word-filter` files; only
the key sets of the JSON maps are ever consulted. -/
structure Filters where
  allow : List (List String)
deriving Repr, DecidableEq

/-- The `match_is_valid` computation of `finalize_delegate_result`:
valid by default, and when allow-filters exist, valid iff the match is a
key of at least one filter map. -/
def matchIsValid (filters : Filters) (m : String) : Bool :=
  if filters.allow.isEmpty then true
  else filters.allow.any (fun fm => fm.contains m)

/-- The per-match body of the word-stats loop.  The Python updates
`num_interactions[match]` under the `match in num_total` guard; the two
dicts always have identical key sets (both are only ever written here, in
lockstep), so both branches are `alBump`.  With `polarity` equal to
Python `None`, the chain `if polarity == 0: ... elif polarity > 0:` first
tests `None == 0` (false) and then evaluates `None > 0`, which raises
`TypeError`; that exception is the `Except.error` below. -/
def foldWordEntry (polarity : Option Rat) (tmp : TmpStats) (m : String)
    (count : Nat) : Except String TmpStats :=
  let tmp :=
    { tmp with
      words_num_total := alBump tmp.words_num_total m count
      words_num_interactions := alBump tmp.words_num_interactions m 1 }
  match polarity with
  | none => Except.error "TypeError: not supported between instances of NoneType and int"
  | some p =>
      if p = 0 then
        Except.ok { tmp with
          words_num_neutral_interactions :=
            alBump tmp.words_num_neutral_interactions m 1 }
      else if p > 0 then
        Except.ok { tmp with
          words_num_positive_interactions :=
            alBump tmp.words_num_positive_interactions m 1 }
      else
        Except.ok { tmp with
          words_num_negative_interactions :=
            alBump tmp.words_num_negative_interactions m 1 }

/-- The `for match, count in word_stats.items()` loop. -/
def foldWords (filters : Filters) (polarity : Option Rat) :
    List (String × Nat) → TmpStats → Except String TmpStats
  | [], tmp => Except.ok tmp
  | (m, count) :: rest, tmp =>
      if matchIsValid filters m then
        match foldWordEntry polarity tmp m count with
        | Except.error e => Except.error e
        | Except.ok tmp' => foldWords filters polarity rest tmp'
      else
        foldWords filters polarity rest tmp

/-- `finalize_delegate_result`: concatenate entities, bucket the
channel-level polarity counters, then run the word-stats loop. -/
def finalize_delegate_result (filters : Filters) (r : DelegateResult)
    (s : RunState) : Except String RunState :=
  let s := { s with tmp := { s.tmp with entities := s.tmp.entities ++ r.entities } }
  let s :=
    match r.polarity with
    | none => s
    | some p =>
        if p = 0 then
          { s with stats := { s.stats with num_neutral := s.stats.num_neutral + 1 } }
        else if p > 0 then
          { s with stats := { s.stats with num_positive := s.stats.num_positive + 1 } }
        else
          { s with stats := { s.stats with num_negative := s.stats.num_negative + 1 } }
  match foldWords filters r.polarity r.word_stats s.tmp with
  | Except.error e => Except.error e
  | Except.ok tmp' => Except.ok { s with tmp := tmp' }

/-! ## The delegate reaper (`join_delegates`) -/

/-- An outstanding worker handle.  `alive` is the thread's
`is_alive()` status at the moment of the reap (a snapshot); `tid`
distinguishes handles. -/
structure Handle where
  tid : Nat
  alive : Bool
deriving Repr, DecidableEq

/-- The handle-reaping loop of `join_delegates`: repeatedly
`pop(0)` the front handle; if it is alive and `block` is false, `break`
(the popped handle is not put back); otherwise `join()` it and continue.
Returns the remaining outstanding list and `num_joined`. -/
def join_delegates : List Handle → Bool → List Handle × Nat
  | [], _ => ([], 0)
  | d :: rest, block =>
      if d.alive && !block then
        (rest, 0)
      else
        let r := join_delegates rest block
        (r.1, r.2 + 1)

/-! ## Configuration (the command-line arguments the hooks read) -/

/-- The argparse values consumed by the page hooks.  Timestamps and ages are
integers standing for the epoch-second floats; `max_age` and
`min_ups` are the integer arguments. -/
structure Config where
  max_age : Int
  min_ups : Int
deriving Repr, DecidableEq

/-! ## Post pages and `process_post_list` -/

/-- The fields of `post['data']` that `process_post_list` reads. -/
structure PostData where
  created_utc : Int
  title : String
  selftext : String
  total_awards_received : Int
  num_comments : Int
  ups : Int
  permalink : String
deriving Repr, DecidableEq

/-- `payload['data']` of a post listing: `children` and the `after`
cursor (`none` for JSON null/absent). -/
structure PostListing where
  children : List PostData
  after : Option String
deriving Repr, DecidableEq

/-- One retained post's synchronous effect on the accumulator
(lines between the age check and the comment-candidate check). -/
def applyPost (cfg : Config) (p : PostData) (s : RunState) : RunState :=
  let s := { s with dispatched := s.dispatched ++ [p.title ++ ". " ++ p.selftext] }
  let s := { s with stats :=
    { s.stats with
      num_awards := s.stats.num_awards + p.total_awards_received
      num_comments := s.stats.num_comments + p.num_comments
      num_interactions := s.stats.num_interactions + 1
      num_posts := s.stats.num_posts + 1
      num_ups := s.stats.num_ups + p.ups } }
  let s :=
    if p.selftext = "" then
      { s with stats := { s.stats with num_urls := s.stats.num_urls + 1 } }
    else
      { s with stats := { s.stats with num_selftexts := s.stats.num_selftexts + 1 } }
  if p.ups > cfg.min_ups && p.num_comments > 0 then
    { s with tmp := { s.tmp with
        comment_candidates := s.tmp.comment_candidates ++ [p.permalink] } }
  else
    s

/-- The `for post in payload['data']['children']` loop.  `age` carries
the running value of the `age_seconds` local (last age computed, `none`
before any post is seen); a post whose age is `>= max_age` breaks out of
the loop with `age_seconds` set to its age. -/
def postLoop (cfg : Config) (now : Int) :
    List PostData → RunState → Option Int → RunState × Option Int
  | [], s, age => (s, age)
  | p :: rest, s, _ =>
      let age := now - p.created_utc
      if age ≥ cfg.max_age then
        (s, some age)
      else
        postLoop cfg now rest (applyPost cfg p s) (some age)

/-- `process_post_list`: run the loop, then decide the next cursor from
the final `age_seconds`: `None` when no post was seen or when the last
computed age is strictly greater than `max_age`, the page's `after`
cursor otherwise. -/
def process_post_list (cfg : Config) (now : Int) (payload : PostListing)
    (s : RunState) : RunState × Option String :=
  let (s, age) := postLoop cfg now payload.children s none
  match age with
  | none => (s, none)
  | some a => if a > cfg.max_age then (s, none) else (s, payload.after)

/-! ## Comment pages and `process_comment_list` -/

/-- A child of a comment listing: either a `kind == 'more'` placeholder
(its `data` kept opaque) or a `t1` comment.  `hasReplies` models the
truthiness test `if comment['data']['replies']:` (`''` when there are no
replies, a full listing payload otherwise); `replies`/`repliesAfter` are
that nested listing's `data.children` and `data.after`. -/
inductive CTree where
  | more (payload : String) : CTree
  | comment (body : String) (created_utc : Int) (total_awards_received : Int)
      (ups : Int) (hasReplies : Bool) (replies : List CTree)
      (repliesAfter : Option String) : CTree

/-- `payload['data']` of a comment listing. -/
structure CommentListing where
  children : List CTree
  after : Option String

/-- The `for comment in payload['data']['children']` loop of
`process_comment_list`.  `age` is the running `age_seconds` local
(untouched by `more` children and by the nested recursive call, whose
return value the code discards while its in-place stats mutations
persist).  A too-old comment is skipped with `continue`, not `break`. -/
def procChildren (cfg : Config) (now : Int) :
    Bool → List CTree → RunState → Option Int → RunState × Option Int
  | _, [], s, age => (s, age)
  | skipAge, CTree.more payload :: rest, s, age =>
      procChildren cfg now skipAge rest
        { s with tmp := { s.tmp with more_comments := s.tmp.more_comments ++ [payload] } }
        age
  | skipAge, CTree.comment body created aw ups hasR reps _repAfter :: rest, s, _ =>
      let age := now - created
      if !skipAge && age ≥ cfg.max_age then
        procChildren cfg now skipAge rest s (some age)
      else
        let s := { s with dispatched := s.dispatched ++ [body] }
        let s := if hasR then (procChildren cfg now true reps s none).1 else s
        let s := { s with stats :=
          { s.stats with
            num_awards := s.stats.num_awards + aw
            num_interactions := s.stats.num_interactions + 1
            num_ups := s.stats.num_ups + ups } }
        procChildren cfg now skipAge rest s (some age)
  termination_by _ l _ _ => sizeOf l
  decreasing_by all_goals simp_wf <;> omega

/-- `process_comment_list`: run the loop, then choose the next cursor
from the final `age_seconds` exactly as the post hook does. -/
def process_comment_list (cfg : Config) (now : Int) (payload : CommentListing)
    (s : RunState) (skipAge : Bool) : RunState × Option String :=
  let (s, age) := procChildren cfg now skipAge payload.children s none
  match age with
  | none => (s, none)
  | some a => if a > cfg.max_age then (s, none) else (s, payload.after)

/-- `process_article`: the article payload is `[post_list, comment_list]`;
the hook processes `payload[1]` as a comment listing with the age check
disabled. -/
def process_article (cfg : Config) (now : Int) (commentList : CommentListing)
    (s : RunState) : RunState × Option String :=
  process_comment_list cfg now commentList s true

/-! ## The paginator (`paginate_and_process`) -/

/-- What one iteration of the pagination loop observes: an HTTP response
with a status code and (for status 200) a parsed payload, an exception
raised while fetching or processing the page (e.g. a malformed payload
missing expected keys), or a `RateLimitException`.  A run of the
paginator is driven by a finite script of such outcomes. -/
inductive FetchOutcome (α : Type) where
  | response (status : Nat) (payload : α) : FetchOutcome α
  | exn : FetchOutcome α
  | rateLimited : FetchOutcome α
deriving Repr, DecidableEq

/-- Bump a status-code histogram entry (`process_response` lines 278-281). -/
def bumpCode : List (Nat × Nat) → Nat → List (Nat × Nat)
  | [], c => [(c, 1)]
  | (c', n) :: rest, c =>
      if c' = c then (c', n + 1) :: rest else (c', n) :: bumpCode rest c

/-- `process_response`: record the status code, pass a 200 response
through, and turn anything else into `None` (a failure). -/
def process_response (status : Nat) (s : RunState) : Bool × RunState :=
  ((status == 200), { s with statusCodes := bumpCode s.statusCodes status })

/-- The `while paginate_enabled` loop of `paginate_and_process`, driven
by a finite outcome script.  Returns the final state, the `abort` flag
and the final `failures` counter.  A 200 response runs the hook and
stops when the returned cursor is `None`; a non-200 response increments
`failures` while `failures <= 99` and otherwise sets `abort` and breaks;
an exception always increments `failures`; a rate-limit signal leaves
the failure state untouched (the handler only reaps finished delegates
or sleeps — modelled with the result queue already drained). -/
def paginateGo {α : Type} (hook : α → RunState → RunState × Option String) :
    List (FetchOutcome α) → RunState → Nat → RunState × Bool × Nat
  | [], s, failures => (s, false, failures)
  | FetchOutcome.response status payload :: rest, s, failures =>
      let (ok, s) := process_response status s
      if ok then
        let (s, after) := hook payload s
        match after with
        | none => (s, false, failures)
        | some _ => paginateGo hook rest s failures
      else if failures ≤ 99 then
        paginateGo hook rest s (failures + 1)
      else
        (s, true, failures)
  | FetchOutcome.exn :: rest, s, failures =>
      paginateGo hook rest s (failures + 1)
  | FetchOutcome.rateLimited :: rest, s, failures =>
      paginateGo hook rest s failures

/-- `paginate_and_process` proper: the loop starts with no failures. -/
def paginate_and_process {α : Type}
    (hook : α → RunState → RunState × Option String)
    (script : List (FetchOutcome α)) (s : RunState) : RunState × Bool × Nat :=
  paginateGo hook script s 0

/-! ## Channel finalization (`__main__` lines 437-457) -/

/-- `Counter(list)`: count occurrences, keys in first-seen order. -/
def cntBump {κ : Type} [DecidableEq κ] : List (κ × Nat) → κ → List (κ × Nat)
  | [], k => [(k, 1)]
  | (k', v) :: rest, k =>
      if k' = k then (k', v + 1) :: rest else (k', v) :: cntBump rest k

def counterOf {κ : Type} [DecidableEq κ] (l : List κ) : List (κ × Nat) :=
  l.foldl cntBump []

/-- Stable insertion for a descending-by-count sort: the new element goes
after every element whose count is at least its own, so ties keep their
first-seen order — the behavior of `Counter.most_common`, which uses
Python's stable `sorted` on the insertion-ordered counter. -/
def insertByCount {κ : Type} (x : κ × Nat) : List (κ × Nat) → List (κ × Nat)
  | [] => [x]
  | y :: ys => if y.2 ≥ x.2 then y :: insertByCount x ys else x :: y :: ys

def most_common {κ : Type} (m : List (κ × Nat)) : List (κ × Nat) :=
  m.foldl (fun acc x => insertByCount x acc) []

/-- A channel's stats entry after finalization: the numeric counters plus
the top-K tables stored next to them. -/
structure FinalStats where
  stats : SubStats
  top_entities : List ((String × String) × Nat)
  top_word_by_num_total : List (String × Nat)
  top_word_by_num_interactions : List (String × Nat)
  top_word_by_num_negative_interactions : List (String × Nat)
  top_word_by_num_neutral_interactions : List (String × Nat)
  top_word_by_num_positive_interactions : List (String × Nat)
deriving Repr, DecidableEq

/-- The per-channel finalization block: set `num_comment_candidates`,
compute the polarity ratios only when `num_interactions > 0` (leaving the
template zeros untouched otherwise), and rank the top-50 tables. -/
def finalize_channel (s : RunState) : FinalStats :=
  let st := { s.stats with
    num_comment_candidates := s.tmp.comment_candidates.length }
  let st :=
    if st.num_interactions > 0 then
      { st with
        negative_polarity_ratio :=
          (st.num_negative : Rat) / (st.num_interactions : Rat)
        positive_polarity_ratio :=
          (st.num_positive : Rat) / (st.num_interactions : Rat) }
    else
      st
  { stats := st
    top_entities := (most_common (counterOf s.tmp.entities)).take 50
    top_word_by_num_total := (most_common s.tmp.words_num_total).take 50
    top_word_by_num_interactions :=
      (most_common s.tmp.words_num_interactions).take 50
    top_word_by_num_negative_interactions :=
      (most_common s.tmp.words_num_negative_interactions).take 50
    top_word_by_num_neutral_interactions :=
      (most_common s.tmp.words_num_neutral_interactions).take 50
    top_word_by_num_positive_interactions :=
      (most_common s.tmp.words_num_positive_interactions).take 50 }

/-! ## The main driver (`__main__` lines 383-457) -/

/-- One channel's scripted upstream behavior: its name, the outcomes of
its `/r/<name>/new` pagination, and the outcomes of each
comment-candidate article fetch, keyed by permalink. -/
structure ChannelScript where
  name : String
  posts : List (FetchOutcome PostListing)
  articles : String → List (FetchOutcome CommentListing)

/-- A fresh channel entry in the stats dict; the script-level status-code
histogram and the delegator are process-wide and carry over. -/
def freshChannelState (prev : RunState) : RunState :=
  { initRunState with
    statusCodes := prev.statusCodes
    dispatched := prev.dispatched }

/-- The `for permalink in ... comment_candidates` loop: paginate each
article; on abort, break. -/
def articleLoop (cfg : Config) (now : Int)
    (articles : String → List (FetchOutcome CommentListing)) :
    List String → RunState → RunState × Bool
  | [], s => (s, false)
  | permalink :: rest, s =>
      let (s, abort, _) :=
        paginate_and_process (process_article cfg now) (articles permalink) s
      if abort then (s, true) else articleLoop cfg now articles rest s

/-- The `for subreddit_name in args.subreddit` loop: initialize the
channel's stats, paginate its post listing, then its comment-candidate
articles; any abort breaks out of the whole loop.  Returns the
per-channel final states in processing order, the last process-wide
state and the abort flag. -/
def runChannels (cfg : Config) (now : Int) :
    List ChannelScript → RunState → List (String × RunState) →
    List (String × RunState) × RunState × Bool
  | [], prev, acc => (acc, prev, false)
  | ch :: rest, prev, acc =>
      let s := freshChannelState prev
      let (s, abortP, _) :=
        paginate_and_process (process_post_list cfg now) ch.posts s
      if abortP then (acc ++ [(ch.name, s)], s, true)
      else
        let (s, abortA) := articleLoop cfg now ch.articles s.tmp.comment_candidates s
        if abortA then (acc ++ [(ch.name, s)], s, true)
        else runChannels cfg now rest s (acc ++ [(ch.name, s)])

/-- What the run produces: the raw channel states, whether it aborted,
and the finalized report rows — `none` when the run aborted, because the
`if abort is True:` branch in `__main__` only logs `'Run aborted'` and
the entire finalize-and-write block is the `else` branch. -/
structure MainResult where
  channelStates : List (String × RunState)
  aborted : Bool
  reports : Option (List (String × FinalStats))

/-- The main run over a list of scripted channels.  The final blocking
`join_delegates` drain is modelled with the result queue already empty
(enrichment folds are analyzed separately via
`finalize_delegate_result`). -/
def runMain (cfg : Config) (now : Int) (channels : List ChannelScript) :
    MainResult :=
  let r := runChannels cfg now channels initRunState []
  { channelStates := r.1
    aborted := r.2.2
    reports :=
      if r.2.2 then none
      else some (r.1.map (fun p => (p.1, finalize_channel p.2))) }

/-! ## The dynamic-schema report writer (`__main__` lines 459-506)

A file is a list of lines (the trailing `'\n'` of each written line and
the `strip()` on read cancel out); a line is a tab-joined list of cells. -/

/-- `line.split('\t')`, accumulating the current cell in reverse. -/
def splitTabAux : List Char → List Char → List String
  | [], acc => [String.mk acc.reverse]
  | c :: rest, acc =>
      if c = '\t' then String.mk acc.reverse :: splitTabAux rest []
      else splitTabAux rest (c :: acc)

def splitTab (s : String) : List String :=
  splitTabAux s.data []

/-- `'\t'.join(cells)`. -/
def joinTab : List String → String
  | [] => ""
  | [x] => x
  | x :: y :: rest => x ++ "\t" ++ joinTab (y :: rest)

/-- `str(n)` for the nonnegative counts the writer serializes. -/
def digitChar : Nat → Char
  | 0 => '0' | 1 => '1' | 2 => '2' | 3 => '3' | 4 => '4'
  | 5 => '5' | 6 => '6' | 7 => '7' | 8 => '8' | _ => '9'

def natStrAux : Nat → Nat → List Char → List Char
  | 0, _, acc => acc
  | fuel + 1, n, acc =>
      if n < 10 then digitChar n :: acc
      else natStrAux fuel (n / 10) (digitChar (n % 10) :: acc)

def natStr (n : Nat) : String :=
  String.mk (natStrAux (n + 1) n [])

/-- Loading the previous rows (lines 468-477): an absent or empty file,
or one whose first header token is not `timestamp`, leaves the defaults
`column_names = ['timestamp']`, `rows = []`. -/
def readDynFile : List String → List String × List (List String)
  | [] => (["timestamp"], [])
  | headerLine :: rest =>
      match splitTab headerLine with
      | [] => (["timestamp"], [])
      | t0 :: ts =>
          if t0 = "timestamp" then ("timestamp" :: ts, rest.map splitTab)
          else (["timestamp"], [])

/-- `column_names.index(word)` (the word is always present when called). -/
def idxOf : List String → String → Nat
  | [], _ => 0
  | c :: rest, w => if c = w then 0 else idxOf rest w + 1

/-- Writing `new_row[idx]` (lines 490-498): append when the row is
exactly long enough, pad with `'0'` when it is shorter, assign in place
otherwise. -/
def placeAt (row : List String) (idx : Nat) (v : String) : List String :=
  if row.length = idx then row ++ [v]
  else if row.length < idx then
    row ++ List.replicate (idx - row.length) "0" ++ [v]
  else
    row.set idx v

/-- The evolving state of the `for word, num in ...` loop. -/
structure WriterAcc where
  cols : List String
  rows : List (List String)
  newRow : List String
deriving Repr, DecidableEq

/-- The per-word loop (lines 482-498): an unseen word is appended as a
new column and every previous row is backfilled with `'0'`; then the
word's count lands at that word's column index in the new row. -/
def writeLoop : List (String × Nat) → WriterAcc → WriterAcc
  | [], acc => acc
  | (word, num) :: rest, acc =>
      let acc :=
        if acc.cols.contains word then acc
        else
          { acc with
            cols := acc.cols ++ [word]
            rows := acc.rows.map (fun r => r ++ ["0"]) }
      writeLoop rest
        { acc with newRow := placeAt acc.newRow (idxOf acc.cols word) (natStr num) }

/-- One full write of a per-word stat file: load the previous content,
run the per-word loop over the stat list starting from
`new_row = [timestamp]`, append the new row, and serialize. -/
def writeStatFile (file : Option (List String)) (statList : List (String × Nat))
    (ts : String) : List String :=
  let loaded :=
    match file with
    | none => (["timestamp"], [])
    | some lines => readDynFile lines
  let acc := writeLoop statList { cols := loaded.1, rows := loaded.2, newRow := [ts] }
  joinTab acc.cols :: (acc.rows ++ [acc.newRow]).map joinTab

/-- A cell that serializes safely: it contains no tab character. -/
def tabFree (s : String) : Prop := '\t' ∉ s.data

/-- The words of a stat list that the per-word loop will append as new
columns, in order: a word is new when it is not among the columns as
they stand at the moment the loop reaches it. -/
def unseenWords : List (String × Nat) → List String → List String
  | [], _ => []
  | (w, _) :: rest, cols =>
      if cols.contains w then unseenWords rest cols
      else w :: unseenWords rest (cols ++ [w])

/-! ## Drivers and reachability used by the analysis -/

/-- Fold a sequence of enrichment results into the accumulator in the
order they were drained from the queue; the first raised exception
propagates (as it does out of the drain loop). -/
def foldResults (filters : Filters) :
    List DelegateResult → RunState → Except String RunState
  | [], s => Except.ok s
  | r :: rest, s =>
      match finalize_delegate_result filters r s with
      | Except.error e => Except.error e
      | Except.ok s' => foldResults filters rest s'

/-- Process a sequence of post-listing pages, page by page, keeping the
accumulator (the cursor a page returns is handled by the paginator and
does not feed back into the state). -/
def runPostPages (cfg : Config) (now : Int) (pages : List PostListing)
    (s : RunState) : RunState :=
  pages.foldl (fun st p => (process_post_list cfg now p st).1) s

/-- The final value of the `age_seconds` local after the comment loop:
the age of the last non-`more` child, or the incoming value when there
is none.  (`more` children and the recursive replies walk leave the
outer loop's `age_seconds` untouched.) -/
def lastAge (now : Int) : List CTree → Option Int → Option Int
  | [], a => a
  | CTree.more _ :: rest, a => lastAge now rest a
  | CTree.comment _ created _ _ _ _ _ :: rest, _ =>
      lastAge now rest (some (now - created))

/-- Accumulator states the program can build: the fresh template, and
anything obtained from a reachable state by a channel re-initialization,
a page hook, a response-histogram update, or a successful enrichment
fold. -/
inductive ReachableState (cfg : Config) (now : Int) (filters : Filters) :
    RunState → Prop
  | init : ReachableState cfg now filters initRunState
  | fresh {s} : ReachableState cfg now filters s →
      ReachableState cfg now filters (freshChannelState s)
  | post {s} (payload : PostListing) : ReachableState cfg now filters s →
      ReachableState cfg now filters (process_post_list cfg now payload s).1
  | comment {s} (payload : CommentListing) (skipAge : Bool) :
      ReachableState cfg now filters s →
      ReachableState cfg now filters (process_comment_list cfg now payload s skipAge).1
  | response {s} (status : Nat) : ReachableState cfg now filters s →
      ReachableState cfg now filters (process_response status s).2
  | fold {s s'} (r : DelegateResult) : ReachableState cfg now filters s →
      finalize_delegate_result filters r s = Except.ok s' →
      ReachableState cfg now filters s'

/-! ## Total mirror of the fold, for results that fold cleanly -/

/-- `foldWordEntry` restricted to the returning executions: with an
absent polarity the code raises instead (claim C3), so there no bucket
is touched. -/
def foldWordEntryT (polarity : Option Rat) (tmp : TmpStats) (m : String)
    (count : Nat) : TmpStats :=
  let tmp :=
    { tmp with
      words_num_total := alBump tmp.words_num_total m count
      words_num_interactions := alBump tmp.words_num_interactions m 1 }
  match polarity with
  | none => tmp
  | some p =>
      if p = 0 then
        { tmp with
          words_num_neutral_interactions :=
            alBump tmp.words_num_neutral_interactions m 1 }
      else if p > 0 then
        { tmp with
          words_num_positive_interactions :=
            alBump tmp.words_num_positive_interactions m 1 }
      else
        { tmp with
          words_num_negative_interactions :=
            alBump tmp.words_num_negative_interactions m 1 }

def foldWordsT (filters : Filters) (polarity : Option Rat) :
    List (String × Nat) → TmpStats → TmpStats
  | [], tmp => tmp
  | (m, count) :: rest, tmp =>
      if matchIsValid filters m then
        foldWordsT filters polarity rest (foldWordEntryT polarity tmp m count)
      else
        foldWordsT filters polarity rest tmp

/-- The channel-level polarity bucketing step of the fold. -/
def bumpBuckets (polarity : Option Rat) (st : SubStats) : SubStats :=
  match polarity with
  | none => st
  | some p =>
      if p = 0 then { st with num_neutral := st.num_neutral + 1 }
      else if p > 0 then { st with num_positive := st.num_positive + 1 }
      else { st with num_negative := st.num_negative + 1 }

def foldResultT (filters : Filters) (r : DelegateResult) (s : RunState) :
    RunState :=
  { s with
    stats := bumpBuckets r.polarity s.stats
    tmp := foldWordsT filters r.polarity r.word_stats
      { s.tmp with entities := s.tmp.entities ++ r.entities } }

def foldResultsT (filters : Filters) (l : List DelegateResult)
    (s : RunState) : RunState :=
  l.foldl (fun st r => foldResultT filters r st) s

/-- A result whose fold returns instead of raising `TypeError`
(claim C3): its polarity is present, or no word match passes the
filters. -/
def resultOk (filters : Filters) (r : DelegateResult) : Prop :=
  r.polarity.isSome = true ∨
    ∀ p ∈ r.word_stats, matchIsValid filters p.1 = false

/-- Selects the word-stat entries that pass the filters and are
credited to the key `x`. -/
def entryFilter (f : Filters) (x : String) : (String × Nat) → Bool :=
  fun p => matchIsValid f p.1 && p.1 == x

def contribTotalE (f : Filters) (entries : List (String × Nat))
    (x : String) : Nat :=
  ((entries.filter (entryFilter f x)).map Prod.snd).sum

def contribInterE (f : Filters) (entries : List (String × Nat))
    (x : String) : Nat :=
  (entries.filter (entryFilter f x)).length

def contribTotal (f : Filters) (r : DelegateResult) (x : String) : Nat :=
  contribTotalE f r.word_stats x

def contribInter (f : Filters) (r : DelegateResult) (x : String) : Nat :=
  contribInterE f r.word_stats x

def contribNeu (f : Filters) (r : DelegateResult) (x : String) : Nat :=
  match r.polarity with
  | none => 0
  | some p => if p = 0 then contribInter f r x else 0

def contribPos (f : Filters) (r : DelegateResult) (x : String) : Nat :=
  match r.polarity with
  | none => 0
  | some p => if p = 0 then 0 else if p > 0 then contribInter f r x else 0

def contribNeg (f : Filters) (r : DelegateResult) (x : String) : Nat :=
  match r.polarity with
  | none => 0
  | some p => if p = 0 then 0 else if p > 0 then 0 else contribInter f r x

/-- Equality of the final aggregate values at the granularity of counts:
the numeric stats, and the occurrence-count functions feeding every
frequency table (what `most_common` ranks by). -/
def sameAggregates (a b : RunState) : Prop :=
  a.stats = b.stats ∧
  (∀ e : String × String, a.tmp.entities.count e = b.tmp.entities.count e) ∧
  (∀ x, alGet a.tmp.words_num_total x = alGet b.tmp.words_num_total x) ∧
  (∀ x, alGet a.tmp.words_num_interactions x =
    alGet b.tmp.words_num_interactions x) ∧
  (∀ x, alGet a.tmp.words_num_neutral_interactions x =
    alGet b.tmp.words_num_neutral_interactions x) ∧
  (∀ x, alGet a.tmp.words_num_positive_interactions x =
    alGet b.tmp.words_num_positive_interactions x) ∧
  (∀ x, alGet a.tmp.words_num_negative_interactions x =
    alGet b.tmp.words_num_negative_interactions x)

/-! # Theorems -/

/-! ## The reaper (claim C4) -/

lemma join_delegates_blocking (l : List Handle) :
    join_delegates l true = ([], l.length) := by
  induction l with
  | nil => rfl
  | cons d rest ih => simp [join_delegates, ih]

lemma join_delegates_nonblocking (l : List Handle) :
    join_delegates l false =
      ((l.dropWhile (fun h => !h.alive)).drop 1,
        (l.takeWhile (fun h => !h.alive)).length) := by
  induction l with
  | nil => rfl
  | cons d rest ih =>
      cases hd : d.alive <;>
        simp [join_delegates, hd, List.dropWhile_cons, List.takeWhile_cons, ih]

/-- C4, counterexample: on an outstanding list holding a single
still-running handle, the claim predicts that a non-blocking reap leaves
the handle present (result `([handle], 0)`); the code `pop(0)`s the
handle before testing `is_alive()` and the `break` never restores it,
so the handle is removed without being joined. -/
theorem claim_C4_counterexample :
    join_delegates [Handle.mk 0 true] false ≠ ([Handle.mk 0 true], 0) := by
  decide

/-- C4, amended: a blocking reap joins and removes every handle
unconditionally; a non-blocking reap joins and removes the finished
prefix of the FIFO list and then also removes — without joining — the
first still-running handle, leaving only the handles behind it in the
outstanding list. -/
theorem claim_C4 (l : List Handle) :
    join_delegates l true = ([], l.length) ∧
    join_delegates l false =
      ((l.dropWhile (fun h => !h.alive)).drop 1,
        (l.takeWhile (fun h => !h.alive)).length) :=
  ⟨join_delegates_blocking l, join_delegates_nonblocking l⟩

/-! ## The failure budget (claim C6) -/

/-- C6, counterexample: 101 consecutive page-processing exceptions push
the failure counter to 101 (past the bound of 99), yet the paginator
never sets the abort flag — only a non-200 HTTP response arriving when
`failures > 99` does. -/
theorem claim_C6_counterexample :
    (paginateGo (process_post_list ⟨3600 * 24, 25⟩ 0)
        (List.replicate 101 FetchOutcome.exn) initRunState 0).2 =
      (false, 101) ∧ 101 > 99 := by
  decide

/-- C6, amended: a page-level exception is caught and always increments
the failure counter (never aborting by itself); a non-200 response is
caught and increments the same counter only while the counter is at most
99; a non-200 response arriving once the counter exceeds 99 sets the
abort flag and halts pagination immediately, without incrementing. -/
theorem claim_C6 {α : Type} (hook : α → RunState → RunState × Option String)
    (rest : List (FetchOutcome α)) (s : RunState) (failures : Nat)
    (status : Nat) (payload : α) :
    (paginateGo hook (FetchOutcome.exn :: rest) s failures =
      paginateGo hook rest s (failures + 1)) ∧
    (status ≠ 200 → failures ≤ 99 →
      paginateGo hook (FetchOutcome.response status payload :: rest) s failures =
        paginateGo hook rest
          { s with statusCodes := bumpCode s.statusCodes status } (failures + 1)) ∧
    (status ≠ 200 → failures > 99 →
      paginateGo hook (FetchOutcome.response status payload :: rest) s failures =
        ({ s with statusCodes := bumpCode s.statusCodes status }, true, failures)) := by
  refine ⟨rfl, fun hst hf => ?_, fun hst hf => ?_⟩
  · have h200 : (status == 200) = false := by simpa using hst
    simp [paginateGo, process_response, h200, hf]
  · have h200 : (status == 200) = false := by simpa using hst
    have : ¬ failures ≤ 99 := by omega
    simp [paginateGo, process_response, h200, this]

/-- C6, witness: with the counter already at 100, a 500 response aborts
at once; with the counter at 0, it just counts. -/
theorem claim_C6_witness :
    (paginateGo (process_post_list ⟨3600 * 24, 25⟩ 0)
        [FetchOutcome.response 500 ⟨[], none⟩] initRunState 100 =
      ({ initRunState with statusCodes := bumpCode initRunState.statusCodes 500 },
        true, 100)) ∧
    (paginateGo (process_post_list ⟨3600 * 24, 25⟩ 0)
        (FetchOutcome.exn :: []) initRunState 0 =
      paginateGo (process_post_list ⟨3600 * 24, 25⟩ 0) [] initRunState 1) :=
  ⟨(claim_C6 (process_post_list ⟨3600 * 24, 25⟩ 0) [] initRunState 100 500
      ⟨[], none⟩).2.2 (by decide) (by decide),
   (claim_C6 (process_post_list ⟨3600 * 24, 25⟩ 0) [] initRunState 0 500
      ⟨[], none⟩).1⟩

/-! ## The post-list age cutoff (claim C1) -/

lemma postLoop_split (cfg : Config) (now : Int) (good : List PostData)
    (bad : PostData) (rest : List PostData) (s : RunState) (a0 : Option Int)
    (hg : ∀ g ∈ good, now - g.created_utc < cfg.max_age)
    (hb : now - bad.created_utc ≥ cfg.max_age) :
    postLoop cfg now (good ++ bad :: rest) s a0 =
      ((postLoop cfg now good s a0).1, some (now - bad.created_utc)) := by
  induction good generalizing s a0 with
  | nil => simp [postLoop, hb]
  | cons g gs ih =>
      have hgage : ¬ (now - g.created_utc ≥ cfg.max_age) := by
        have := hg g (by simp); omega
      simp only [List.cons_append, postLoop, if_neg hgage]
      exact ih _ _ (fun x hx => hg x (List.mem_cons_of_mem _ hx))

/-- C1, counterexample: a page whose first post's age equals `max-age`
exactly.  The loop `break`s on `age_seconds >= args.max_age`, so the post
contributes nothing, but the end-of-page check uses the strict
`age_seconds > args.max_age`, so the hook returns the page's `after`
cursor instead of the `None` the claim requires. -/
theorem claim_C1_counterexample :
    (process_post_list ⟨100, 25⟩ 100
        ⟨[{ created_utc := 0, title := "t", selftext := "",
            total_awards_received := 0, num_comments := 0, ups := 0,
            permalink := "/p" }], some "cursor"⟩ initRunState).2 ≠ none := by
  decide

/-- C1, amended: on a page split as `good ++ bad :: rest` with every
post in `good` younger than `max-age` and `bad` of age `≥ max-age` (the
shape every newest-first page with a too-old item has), the hook's state
is exactly the state after processing `good` — `bad` and everything
after it contribute nothing — and the returned cursor is `None` only
when `bad`'s age is *strictly* greater than `max-age`; when the age
equals `max-age` exactly the page's `after` cursor is returned and
pagination continues. -/
theorem claim_C1 (cfg : Config) (now : Int) (good : List PostData)
    (bad : PostData) (rest : List PostData) (after : Option String)
    (s : RunState)
    (hg : ∀ g ∈ good, now - g.created_utc < cfg.max_age)
    (hb : now - bad.created_utc ≥ cfg.max_age) :
    process_post_list cfg now ⟨good ++ bad :: rest, after⟩ s =
      ((postLoop cfg now good s none).1,
        if now - bad.created_utc > cfg.max_age then none else after) := by
  unfold process_post_list
  rw [postLoop_split cfg now good bad rest s none hg hb]
  by_cases hc : now - bad.created_utc > cfg.max_age <;> simp [hc]

/-- C1, witness: one post whose age is exactly `max-age`: it is not
aggregated, yet the hook returns the page cursor. -/
theorem claim_C1_witness :
    process_post_list ⟨50, 25⟩ 50
        ⟨[{ created_utc := 0, title := "t", selftext := "",
            total_awards_received := 0, num_comments := 0, ups := 0,
            permalink := "/p" }], some "w"⟩ initRunState =
      (initRunState, some "w") := by
  have h := claim_C1 ⟨50, 25⟩ 50 []
    { created_utc := 0, title := "t", selftext := "",
      total_awards_received := 0, num_comments := 0, ups := 0,
      permalink := "/p" } [] (some "w") initRunState (by simp) (by decide)
  simpa [postLoop] using h

/-! ## The comment-list age cutoff (claim C7) -/

lemma procChildren_age (cfg : Config) (now : Int) (skipAge : Bool)
    (l : List CTree) (s : RunState) (a0 : Option Int) :
    (procChildren cfg now skipAge l s a0).2 = lastAge now l a0 := by
  induction l generalizing s a0 with
  | nil => simp [procChildren, lastAge]
  | cons c rest ih =>
      cases c with
      | more payload => rw [procChildren, lastAge]; exact ih _ _
      | comment body created aw ups hasR reps repAfter =>
          rw [procChildren, lastAge]
          split
          · exact ih _ _
          · exact ih _ _

lemma process_comment_list_cursor (cfg : Config) (now : Int)
    (payload : CommentListing) (s : RunState) (skipAge : Bool) :
    (process_comment_list cfg now payload s skipAge).2 =
      match (procChildren cfg now skipAge payload.children s none).2 with
      | none => none
      | some a => if a > cfg.max_age then none else payload.after := by
  unfold process_comment_list
  cases hpc : procChildren cfg now skipAge payload.children s none with
  | mk s' age =>
      cases age with
      | none => simp
      | some a => by_cases hc : cfg.max_age < a <;> simp [hc]

/-- C7, counterexample: a comment page `[age 100, age 10]` with
`max-age = 50`.  The first comment's age exceeds the cutoff, but the
loop merely `continue`s, so the second comment is still dispatched and
counted (`num_interactions = 1`, one dispatched blob), and because the
*last* comment is young the hook returns the page's cursor — both halves
of the claim fail. -/
theorem claim_C7_counterexample :
    (process_comment_list ⟨50, 25⟩ 100
        ⟨[CTree.comment "a" 0 0 0 false [] none,
          CTree.comment "b" 90 0 0 false [] none], some "c"⟩
        initRunState false).1.stats.num_interactions ≠ 0 ∧
    (process_comment_list ⟨50, 25⟩ 100
        ⟨[CTree.comment "a" 0 0 0 false [] none,
          CTree.comment "b" 90 0 0 false [] none], some "c"⟩
        initRunState false).2 ≠ none := by
  constructor <;>
    (norm_num [process_comment_list, procChildren, initRunState]; try decide)

/-- C7, amended: with the age check active, a comment whose age is at
least `max-age` is skipped *individually* (`continue`): it is not
dispatched or counted, but the loop proceeds to the later comments of
the page.  The hook returns a `None` cursor exactly when the page has no
comment at all or the *last* comment's age is strictly greater than
`max-age`; otherwise it returns the page's `after` cursor. -/
theorem claim_C7 (cfg : Config) (now : Int) (body : String)
    (created aw ups : Int) (hasR : Bool) (reps : List CTree)
    (repAfter : Option String) (rest : List CTree) (s : RunState)
    (a0 : Option Int) (hold : now - created ≥ cfg.max_age) :
    (procChildren cfg now false
        (CTree.comment body created aw ups hasR reps repAfter :: rest) s a0 =
      procChildren cfg now false rest s (some (now - created))) ∧
    ∀ payload : CommentListing,
      (process_comment_list cfg now payload s false).2 =
        match lastAge now payload.children none with
        | none => none
        | some a => if a > cfg.max_age then none else payload.after := by
  constructor
  · rw [procChildren]
    simp [hold]
  · intro payload
    rw [process_comment_list_cursor, procChildren_age]

/-- C7, witness: the skipped too-old comment at the head of the
counterexample page, and an empty page returning a `None` cursor. -/
theorem claim_C7_witness :
    (procChildren ⟨50, 25⟩ 100 false
        (CTree.comment "a" 0 0 0 false [] none ::
          [CTree.comment "b" 90 0 0 false [] none]) initRunState none =
      procChildren ⟨50, 25⟩ 100 false
        [CTree.comment "b" 90 0 0 false [] none] initRunState (some 100)) ∧
    (process_comment_list ⟨50, 25⟩ 100 ⟨[], some "c"⟩ initRunState false).2 =
      none := by
  have h := claim_C7 ⟨50, 25⟩ 100 "a" 0 0 0 false [] none
    [CTree.comment "b" 90 0 0 false [] none] initRunState none (by decide)
  exact ⟨h.1, by simpa [lastAge] using h.2 ⟨[], some "c"⟩⟩

/-! ## Abort and the final reports (claim C2) -/

/-- C2, counterexample: channel `A` completes normally (one empty 200
page), then channel `B` exhausts the failure budget with 101 non-200
responses and aborts.  The claim requires a report row for the completed
channel `A`; the code's `if abort is True:` branch only logs
`'Run aborted'`, so nothing at all is finalized or written. -/
theorem claim_C2_counterexample :
    (runMain ⟨3600 * 24, 25⟩ 0
        [{ name := "A", posts := [FetchOutcome.response 200 ⟨[], none⟩],
           articles := fun _ => [] },
         { name := "B",
           posts := List.replicate 101 (FetchOutcome.response 500 ⟨[], none⟩),
           articles := fun _ => [] }]).aborted = true ∧
    (runMain ⟨3600 * 24, 25⟩ 0
        [{ name := "A", posts := [FetchOutcome.response 200 ⟨[], none⟩],
           articles := fun _ => [] },
         { name := "B",
           posts := List.replicate 101 (FetchOutcome.response 500 ⟨[], none⟩),
           articles := fun _ => [] }]).reports = none :=
  ⟨rfl, rfl⟩

/-- C2, amended: when the abort flag is set mid-run the run halts and
the program skips finalization entirely: no report rows are written for
*any* channel — including the channels completed before the abort — and
every channel's accumulated stats (the aborted one's included) are
discarded unflushed. -/
theorem claim_C2 (cfg : Config) (now : Int) (channels : List ChannelScript)
    (h : (runMain cfg now channels).aborted = true) :
    (runMain cfg now channels).reports = none := by
  unfold runMain at h ⊢
  simp only at h ⊢
  simp [h]

/-- C2, witness: the aborting two-channel run produces no reports. -/
theorem claim_C2_witness :
    (runMain ⟨3600 * 24, 25⟩ 0
        [{ name := "A", posts := [FetchOutcome.response 200 ⟨[], none⟩],
           articles := fun _ => [] },
         { name := "C",
           posts := List.replicate 101 (FetchOutcome.response 404 ⟨[], none⟩),
           articles := fun _ => [] }]).reports = none :=
  claim_C2 ⟨3600 * 24, 25⟩ 0 _ rfl

/-! ## Fold of a sentiment-free result (claim C3) -/

/-- C3: the claim is the documented intent (spec §4.5: a `None`/absent
polarity contributes to no bucket and the fold succeeds), and the
channel-level chain at lines 103-110 implements exactly that with
`if polarity is None: pass / elif ...`.  But the per-word chain at lines
130-142 writes `if polarity is None: pass` followed by a fresh
`if polarity == 0: ... elif polarity > 0:` — an `if` where an `elif` was
meant — so for a sentiment-disabled result that counted at least one
valid word match, `None > 0` raises `TypeError` and the fold dies
instead of leaving the buckets unchanged.  This theorem evaluates the
code at the failing input. -/
theorem claim_C3 :
    finalize_delegate_result ⟨[]⟩
        { blob := "some text", word_stats := [("x", 1)], entities := [],
          polarity := none, subjectivity := none } initRunState =
      Except.error
        "TypeError: not supported between instances of NoneType and int" := by
  rfl

/-! ## The posts/urls/selftexts invariant (claim C10) -/

/-- The invariant of claim C10 as a predicate on states. -/
def urlSplitInv (s : RunState) : Prop :=
  s.stats.num_urls + s.stats.num_selftexts = s.stats.num_posts

lemma applyPost_inv (cfg : Config) (p : PostData) (s : RunState)
    (h : urlSplitInv s) : urlSplitInv (applyPost cfg p s) := by
  unfold urlSplitInv applyPost at *
  by_cases hs : p.selftext = "" <;> simp [hs] <;> split <;> simp <;> omega

lemma postLoop_inv (cfg : Config) (now : Int) (children : List PostData)
    (s : RunState) (a0 : Option Int) (h : urlSplitInv s) :
    urlSplitInv (postLoop cfg now children s a0).1 := by
  induction children generalizing s a0 with
  | nil => exact h
  | cons p rest ih =>
      rw [postLoop]
      split
      · exact h
      · exact ih _ _ (applyPost_inv cfg p s h)

lemma process_post_list_state (cfg : Config) (now : Int)
    (payload : PostListing) (s : RunState) :
    (process_post_list cfg now payload s).1 =
      (postLoop cfg now payload.children s none).1 := by
  unfold process_post_list
  cases hpl : postLoop cfg now payload.children s none with
  | mk s' age =>
      cases age with
      | none => rfl
      | some a => by_cases hc : a > cfg.max_age <;> simp [hc]

lemma runPostPages_inv (cfg : Config) (now : Int) (pages : List PostListing)
    (s : RunState) (h : urlSplitInv s) :
    urlSplitInv (runPostPages cfg now pages s) := by
  induction pages generalizing s with
  | nil => exact h
  | cons p rest ih =>
      rw [runPostPages] at *
      simp only [List.foldl_cons]
      exact ih _ (by rw [process_post_list_state]; exact postLoop_inv _ _ _ _ _ h)

/-- C10: in every accumulator state reachable by processing post-list
pages from a fresh channel state, `num_urls + num_selftexts = num_posts`:
each retained post bumps `num_posts` once and exactly one of `num_urls`
(empty selftext) or `num_selftexts` (non-empty selftext). -/
theorem claim_C10 (cfg : Config) (now : Int) (pages : List PostListing) :
    (runPostPages cfg now pages initRunState).stats.num_urls +
      (runPostPages cfg now pages initRunState).stats.num_selftexts =
      (runPostPages cfg now pages initRunState).stats.num_posts :=
  runPostPages_inv cfg now pages initRunState (by rfl)

/-! ## Polarity ratios at finalization (claim C9) -/

/-- The two ratio fields of a state, as a pair: before finalization they
still hold their template zeros, because nothing but the finalization
block ever writes them. -/
def polarityRatios (s : RunState) : Rat × Rat :=
  (s.stats.positive_polarity_ratio, s.stats.negative_polarity_ratio)

lemma applyPost_polarityRatios (cfg : Config) (p : PostData) (s : RunState) :
    polarityRatios (applyPost cfg p s) = polarityRatios s := by
  unfold applyPost
  split <;> split <;> rfl

lemma postLoop_polarityRatios (cfg : Config) (now : Int)
    (children : List PostData) (s : RunState) (a0 : Option Int) :
    polarityRatios (postLoop cfg now children s a0).1 = polarityRatios s := by
  induction children generalizing s a0 with
  | nil => rfl
  | cons p rest ih =>
      rw [postLoop]
      split
      · rfl
      · rw [ih _ _, applyPost_polarityRatios]

lemma procChildren_polarityRatios (cfg : Config) (now : Int) :
    ∀ (n : Nat) (l : List CTree), sizeOf l ≤ n →
      ∀ (skip : Bool) (s : RunState) (a0 : Option Int),
        polarityRatios (procChildren cfg now skip l s a0).1 = polarityRatios s := by
  intro n
  induction n with
  | zero =>
      intro l hl
      exfalso
      cases l <;> simp at hl
  | succ n ihn =>
      intro l hl skip s a0
      cases l with
      | nil => rw [procChildren]
      | cons c rest =>
          cases c with
          | more payload =>
              have hrest : sizeOf rest ≤ n := by simp at hl; omega
              rw [procChildren, ihn rest hrest _ _ _]
              rfl
          | comment body created aw ups hasR reps repAfter =>
              have hrest : sizeOf rest ≤ n := by simp at hl; omega
              have hreps : sizeOf reps ≤ n := by simp at hl; omega
              rw [procChildren]
              simp only []
              split
              · exact ihn rest hrest _ _ _
              · rw [ihn rest hrest _ _ _]
                cases hR : hasR
                · simp only [hR, Bool.false_eq_true, if_false]
                  rfl
                · simp only [hR, if_true]
                  exact ihn reps hreps true
                    { s with dispatched := s.dispatched ++ [body] } none

lemma process_comment_list_state (cfg : Config) (now : Int)
    (payload : CommentListing) (s : RunState) (skipAge : Bool) :
    (process_comment_list cfg now payload s skipAge).1 =
      (procChildren cfg now skipAge payload.children s none).1 := by
  unfold process_comment_list
  cases hpc : procChildren cfg now skipAge payload.children s none with
  | mk s' age =>
      cases age with
      | none => rfl
      | some a => by_cases hc : a > cfg.max_age <;> simp [hc]

lemma finalize_result_polarityRatios (filters : Filters) (r : DelegateResult)
    (s s' : RunState)
    (h : finalize_delegate_result filters r s = Except.ok s') :
    polarityRatios s' = polarityRatios s := by
  unfold finalize_delegate_result at h
  cases hp : r.polarity with
  | none =>
      rw [hp] at h
      simp only [] at h
      split at h
      · simp at h
      · injection h with h2
        subst h2
        rfl
  | some p =>
      rw [hp] at h
      simp only [] at h
      split at h
      · simp at h
      · injection h with h2
        subst h2
        unfold polarityRatios
        split
        · rfl
        · split <;> rfl

lemma reachable_polarityRatios {cfg : Config} {now : Int} {filters : Filters}
    {s : RunState} (h : ReachableState cfg now filters s) :
    polarityRatios s = (0, 0) := by
  induction h with
  | init => rfl
  | fresh _ _ => rfl
  | post payload _ ih =>
      rw [← ih, process_post_list_state, postLoop_polarityRatios]
  | comment payload skipAge _ ih =>
      rw [← ih, process_comment_list_state,
        procChildren_polarityRatios cfg now (sizeOf payload.children)
          payload.children (Nat.le_refl _)]
  | response status _ ih => exact ih
  | fold r _ hok ih =>
      rw [← ih, finalize_result_polarityRatios _ r _ _ hok]

/-- C9: at finalization, when `num_interactions > 0` the two ratios are
set to `num_positive / num_interactions` and
`num_negative / num_interactions`; when `num_interactions = 0` the
`if`-guard skips the division entirely and both ratios keep the value
they hold in every program-reachable accumulator state: `0`. -/
theorem claim_C9 (cfg : Config) (now : Int) (filters : Filters)
    (s : RunState) (hs : ReachableState cfg now filters s) :
    ((finalize_channel s).stats.positive_polarity_ratio,
        (finalize_channel s).stats.negative_polarity_ratio) =
      if s.stats.num_interactions > 0 then
        ((s.stats.num_positive : Rat) / (s.stats.num_interactions : Rat),
          (s.stats.num_negative : Rat) / (s.stats.num_interactions : Rat))
      else (0, 0) := by
  have hz := reachable_polarityRatios hs
  have hpos : s.stats.positive_polarity_ratio = 0 := by
    simpa [polarityRatios] using congrArg Prod.fst hz
  have hneg : s.stats.negative_polarity_ratio = 0 := by
    simpa [polarityRatios] using congrArg Prod.snd hz
  by_cases hni : s.stats.num_interactions > 0 <;>
    simp [finalize_channel, hni, hpos, hneg]

/-- C9, witness: the fresh accumulator has no interactions, so both
ratios come out `0` with no division performed. -/
theorem claim_C9_witness :
    ((finalize_channel initRunState).stats.positive_polarity_ratio,
        (finalize_channel initRunState).stats.negative_polarity_ratio) =
      (0, 0) := by
  have h := claim_C9 ⟨3600 * 24, 25⟩ 0 ⟨[]⟩ initRunState ReachableState.init
  simpa [initRunState, subreddit_stats_template] using h

/-! ## The dynamic-schema writer round trip (claim C8) -/

lemma splitTabAux_no_tab (cs : List Char) (acc : List Char) (h : '\t' ∉ cs) :
    splitTabAux cs acc = [String.mk (acc.reverse ++ cs)] := by
  induction cs generalizing acc with
  | nil => simp [splitTabAux]
  | cons c rest ih =>
      have hc : c ≠ '\t' := fun hc => h (hc ▸ List.mem_cons_self _ _)
      rw [splitTabAux, if_neg hc, ih (c :: acc) (fun hm => h (List.mem_cons_of_mem _ hm))]
      simp

lemma splitTabAux_append (cs rest acc : List Char) (h : '\t' ∉ cs) :
    splitTabAux (cs ++ '\t' :: rest) acc =
      String.mk (acc.reverse ++ cs) :: splitTabAux rest [] := by
  induction cs generalizing acc with
  | nil => simp [splitTabAux]
  | cons c cs' ih =>
      have hc : c ≠ '\t' := fun hc => h (hc ▸ List.mem_cons_self _ _)
      rw [List.cons_append, splitTabAux, if_neg hc,
        ih (c :: acc) (fun hm => h (List.mem_cons_of_mem _ hm))]
      simp

lemma splitTab_joinTab_cons : ∀ (l : List String) (x : String), tabFree x →
    (∀ y ∈ l, tabFree y) → splitTab (joinTab (x :: l)) = x :: l := by
  intro l
  induction l with
  | nil =>
      intro x hx _
      rw [joinTab, splitTab, splitTabAux_no_tab _ _ hx]
      simp
  | cons y l' ih =>
      intro x hx hl
      have hdata : (x ++ "\t" ++ joinTab (y :: l')).data =
          x.data ++ '\t' :: (joinTab (y :: l')).data := by
        rw [String.data_append, String.data_append]
        simp
      rw [joinTab, splitTab, hdata, splitTabAux_append _ _ _ hx]
      have h2 : splitTabAux (joinTab (y :: l')).data [] = y :: l' :=
        ih y (hl y (List.mem_cons_self _ _))
          (fun z hz => hl z (List.mem_cons_of_mem _ hz))
      rw [h2]
      simp

lemma splitTab_joinTab (l : List String) (hne : l ≠ [])
    (h : ∀ y ∈ l, tabFree y) : splitTab (joinTab l) = l := by
  cases l with
  | nil => exact absurd rfl hne
  | cons x l' =>
      exact splitTab_joinTab_cons l' x (h x (List.mem_cons_self _ _))
        (fun z hz => h z (List.mem_cons_of_mem _ hz))

lemma digitChar_ne_tab (n : Nat) : digitChar n ≠ '\t' := by
  unfold digitChar
  split <;> decide

lemma natStrAux_ne_tab : ∀ (fuel n : Nat) (acc : List Char),
    (∀ c ∈ acc, c ≠ '\t') → ∀ c ∈ natStrAux fuel n acc, c ≠ '\t' := by
  intro fuel
  induction fuel with
  | zero => intro n acc hacc; exact hacc
  | succ f ih =>
      intro n acc hacc c hc
      rw [natStrAux] at hc
      have hpush : ∀ d ∈ digitChar (n % 10) :: acc, d ≠ '\t' := by
        intro d hd
        cases hd with
        | head => exact digitChar_ne_tab _
        | tail _ hmem => exact hacc _ hmem
      split at hc
      · cases hc with
        | head => exact digitChar_ne_tab _
        | tail _ hmem => exact hacc _ hmem
      · exact ih _ _ hpush c hc

lemma natStr_tabFree (n : Nat) : tabFree (natStr n) := fun h =>
  natStrAux_ne_tab (n + 1) n [] (by simp) '\t' h rfl

lemma zeroStr_tabFree : tabFree "0" := by
  unfold tabFree
  decide

lemma placeAt_mem (row : List String) (idx : Nat) (v c : String)
    (hc : c ∈ placeAt row idx v) : c ∈ row ∨ c = v ∨ c = "0" := by
  unfold placeAt at hc
  split at hc
  · rcases List.mem_append.1 hc with h | h
    · exact Or.inl h
    · simp at h; exact Or.inr (Or.inl h)
  · split at hc
    · rcases List.mem_append.1 hc with h | h
      · rcases List.mem_append.1 h with h' | h'
        · exact Or.inl h'
        · exact Or.inr (Or.inr (List.eq_of_mem_replicate h'))
      · simp at h; exact Or.inr (Or.inl h)
    · rcases List.mem_or_eq_of_mem_set hc with h | h
      · exact Or.inl h
      · exact Or.inr (Or.inl h)

lemma placeAt_ne_nil (row : List String) (idx : Nat) (v : String)
    (h : row ≠ []) : placeAt row idx v ≠ [] := by
  unfold placeAt
  split
  · simp
  · split
    · simp
    · simpa using h

lemma writeLoop_cols_rows : ∀ (stats : List (String × Nat)) (acc : WriterAcc),
    (writeLoop stats acc).cols = acc.cols ++ unseenWords stats acc.cols ∧
    (writeLoop stats acc).rows = acc.rows.map
      (fun r => r ++ List.replicate (unseenWords stats acc.cols).length "0") := by
  intro stats
  induction stats with
  | nil =>
      intro acc
      constructor
      · simp [writeLoop, unseenWords]
      · simp [writeLoop, unseenWords]
  | cons e rest ih =>
      intro acc
      obtain ⟨w, num⟩ := e
      rw [writeLoop, unseenWords]
      by_cases hw : acc.cols.contains w = true
      · simp only [hw, if_true]
        have h := ih { acc with
          newRow := placeAt acc.newRow (idxOf acc.cols w) (natStr num) }
        exact ⟨h.1, h.2⟩
      · simp only [hw, if_false, Bool.false_eq_true]
        have h := ih { acc with
          cols := acc.cols ++ [w]
          rows := acc.rows.map (fun r => r ++ ["0"])
          newRow := placeAt acc.newRow (idxOf (acc.cols ++ [w]) w) (natStr num) }
        constructor
        · rw [h.1]; simp
        · rw [h.2]
          rw [List.map_map]
          apply List.map_congr_left
          intro r _
          simp [List.replicate_succ]

lemma writeLoop_newRow_tabFree : ∀ (stats : List (String × Nat))
    (acc : WriterAcc), (∀ p ∈ stats, tabFree p.1) →
    (∀ c ∈ acc.newRow, tabFree c) →
    ∀ c ∈ (writeLoop stats acc).newRow, tabFree c := by
  intro stats
  induction stats with
  | nil => intro acc _ hrow; exact hrow
  | cons e rest ih =>
      intro acc hstats hrow
      obtain ⟨w, num⟩ := e
      rw [writeLoop]
      have hrest : ∀ p ∈ rest, tabFree p.1 :=
        fun p hp => hstats p (List.mem_cons_of_mem _ hp)
      have hplace : ∀ (cols : List String),
          ∀ c ∈ placeAt acc.newRow (idxOf cols w) (natStr num), tabFree c := by
        intro cols c hc
        rcases placeAt_mem _ _ _ _ hc with h | h | h
        · exact hrow c h
        · exact h ▸ natStr_tabFree num
        · exact h ▸ zeroStr_tabFree
      by_cases hw : acc.cols.contains w = true
      · simp only [hw, if_true]
        exact ih _ hrest (hplace acc.cols)
      · simp only [hw, if_false, Bool.false_eq_true]
        exact ih _ hrest (hplace (acc.cols ++ [w]))

lemma writeLoop_newRow_ne_nil : ∀ (stats : List (String × Nat))
    (acc : WriterAcc), acc.newRow ≠ [] →
    (writeLoop stats acc).newRow ≠ [] := by
  intro stats
  induction stats with
  | nil => intro acc h; exact h
  | cons e rest ih =>
      intro acc h
      obtain ⟨w, num⟩ := e
      rw [writeLoop]
      by_cases hw : acc.cols.contains w = true
      · simp only [hw, if_true]
        exact ih _ (placeAt_ne_nil _ _ _ h)
      · simp only [hw, if_false, Bool.false_eq_true]
        exact ih _ (placeAt_ne_nil _ _ _ h)

lemma unseenWords_mem : ∀ (stats : List (String × Nat)) (cols : List String)
    (w : String), w ∈ unseenWords stats cols → w ∈ stats.map Prod.fst := by
  intro stats
  induction stats with
  | nil => intro cols w h; exact absurd h (by simp [unseenWords])
  | cons e rest ih =>
      intro cols w h
      obtain ⟨w', num⟩ := e
      rw [unseenWords] at h
      split at h
      · exact List.mem_cons_of_mem _ (ih _ _ h)
      · cases h with
        | head => exact List.mem_cons_self _ _
        | tail _ hmem => exact List.mem_cons_of_mem _ (ih _ _ hmem)

lemma writeLoop_cols_rows_mk (stats : List (String × Nat)) (cols : List String)
    (rows : List (List String)) (nr : List String) :
    (writeLoop stats ⟨cols, rows, nr⟩).cols = cols ++ unseenWords stats cols ∧
    (writeLoop stats ⟨cols, rows, nr⟩).rows = rows.map
      (fun r => r ++ List.replicate (unseenWords stats cols).length "0") :=
  writeLoop_cols_rows stats ⟨cols, rows, nr⟩

lemma writeStatFile_none (stats : List (String × Nat)) (ts : String) :
    writeStatFile none stats ts =
      joinTab (writeLoop stats ⟨["timestamp"], [], [ts]⟩).cols ::
        ((writeLoop stats ⟨["timestamp"], [], [ts]⟩).rows ++
          [(writeLoop stats ⟨["timestamp"], [], [ts]⟩).newRow]).map joinTab := rfl

lemma writeStatFile_some (lines : List String) (stats : List (String × Nat))
    (ts : String) :
    writeStatFile (some lines) stats ts =
      joinTab (writeLoop stats
          ⟨(readDynFile lines).1, (readDynFile lines).2, [ts]⟩).cols ::
        ((writeLoop stats
            ⟨(readDynFile lines).1, (readDynFile lines).2, [ts]⟩).rows ++
          [(writeLoop stats
            ⟨(readDynFile lines).1, (readDynFile lines).2, [ts]⟩).newRow]).map
          joinTab := rfl

/-- C8: write once into a fresh file, read the file back, write again
with a stat list containing exactly one previously unseen word `w`
(tab-free cells throughout, as every cell the program emits is): the
resulting file is the old header with `w` appended as the last column,
then the historical row with every value still in its original column
and `"0"` in the new column, then the new row. -/
theorem claim_C8 (stats1 stats2 : List (String × Nat)) (ts1 ts2 : String)
    (w : String) (hts1 : tabFree ts1) (hw1 : ∀ p ∈ stats1, tabFree p.1)
    (hw : unseenWords stats2
        (writeLoop stats1 ⟨["timestamp"], [], [ts1]⟩).cols = [w]) :
    ∃ newRow2 : List String,
      writeStatFile (some (writeStatFile none stats1 ts1)) stats2 ts2 =
        joinTab ((writeLoop stats1 ⟨["timestamp"], [], [ts1]⟩).cols ++ [w]) ::
          joinTab ((writeLoop stats1 ⟨["timestamp"], [], [ts1]⟩).newRow ++ ["0"]) ::
          [joinTab newRow2] := by
  have h1 := writeLoop_cols_rows_mk stats1 ["timestamp"] [] [ts1]
  have hcols1 : (writeLoop stats1 ⟨["timestamp"], [], [ts1]⟩).cols =
      "timestamp" :: unseenWords stats1 ["timestamp"] := by simpa using h1.1
  have hrows1 : (writeLoop stats1 ⟨["timestamp"], [], [ts1]⟩).rows = [] := by
    simpa using h1.2
  have hrowTF : ∀ c ∈ (writeLoop stats1 ⟨["timestamp"], [], [ts1]⟩).newRow,
      tabFree c := by
    apply writeLoop_newRow_tabFree stats1 _ hw1
    intro c hc
    simp at hc
    exact hc ▸ hts1
  have hrowNe : (writeLoop stats1 ⟨["timestamp"], [], [ts1]⟩).newRow ≠ [] :=
    writeLoop_newRow_ne_nil stats1 _ (by simp)
  have hcolsTF : ∀ c ∈ (writeLoop stats1 ⟨["timestamp"], [], [ts1]⟩).cols,
      tabFree c := by
    rw [hcols1]
    intro c hc
    cases hc with
    | head => unfold tabFree; decide
    | tail _ hmem =>
        rcases List.mem_map.1 (unseenWords_mem stats1 _ c hmem) with ⟨p, hp, hpc⟩
        exact hpc ▸ hw1 p hp
  have hfile1 : writeStatFile none stats1 ts1 =
      [joinTab (writeLoop stats1 ⟨["timestamp"], [], [ts1]⟩).cols,
        joinTab (writeLoop stats1 ⟨["timestamp"], [], [ts1]⟩).newRow] := by
    rw [writeStatFile_none, hrows1]
    rfl
  have hsplitHeader : splitTab (joinTab
      (writeLoop stats1 ⟨["timestamp"], [], [ts1]⟩).cols) =
      (writeLoop stats1 ⟨["timestamp"], [], [ts1]⟩).cols :=
    splitTab_joinTab _ (by rw [hcols1]; simp) hcolsTF
  have hsplitRow : splitTab (joinTab
      (writeLoop stats1 ⟨["timestamp"], [], [ts1]⟩).newRow) =
      (writeLoop stats1 ⟨["timestamp"], [], [ts1]⟩).newRow :=
    splitTab_joinTab _ hrowNe hrowTF
  have hread : readDynFile
      [joinTab (writeLoop stats1 ⟨["timestamp"], [], [ts1]⟩).cols,
        joinTab (writeLoop stats1 ⟨["timestamp"], [], [ts1]⟩).newRow] =
      ((writeLoop stats1 ⟨["timestamp"], [], [ts1]⟩).cols,
        [(writeLoop stats1 ⟨["timestamp"], [], [ts1]⟩).newRow]) := by
    rw [readDynFile, hsplitHeader, hcols1]
    simp [hsplitRow, hcols1]
  have h2 := writeLoop_cols_rows_mk stats2
    (writeLoop stats1 ⟨["timestamp"], [], [ts1]⟩).cols
    [(writeLoop stats1 ⟨["timestamp"], [], [ts1]⟩).newRow] [ts2]
  refine ⟨(writeLoop stats2
    ⟨(writeLoop stats1 ⟨["timestamp"], [], [ts1]⟩).cols,
      [(writeLoop stats1 ⟨["timestamp"], [], [ts1]⟩).newRow], [ts2]⟩).newRow, ?_⟩
  rw [hfile1, writeStatFile_some, hread]
  dsimp only
  rw [h2.1, h2.2, hw]
  simp

/-- C8, witness: first write `foo=3, bar=5`, read back, then write
`foo=7, baz=2, bar=1` — `baz` is the one unseen word. -/
theorem claim_C8_witness :
    ∃ newRow2 : List String,
      writeStatFile (some (writeStatFile none [("foo", 3), ("bar", 5)] "T1"))
          [("foo", 7), ("baz", 2), ("bar", 1)] "T2" =
        joinTab ((writeLoop [("foo", 3), ("bar", 5)]
            ⟨["timestamp"], [], ["T1"]⟩).cols ++ ["baz"]) ::
          joinTab ((writeLoop [("foo", 3), ("bar", 5)]
            ⟨["timestamp"], [], ["T1"]⟩).newRow ++ ["0"]) ::
          [joinTab newRow2] := by
  apply claim_C8 [("foo", 3), ("bar", 5)] [("foo", 7), ("baz", 2), ("bar", 1)]
    "T1" "T2" "baz"
  · unfold tabFree; decide
  · intro p hp
    unfold tabFree
    rcases List.mem_cons.1 hp with h | h
    · rw [h]; decide
    · simp at h; rw [h]; decide
  · decide

/-! ## Commutativity of the aggregate fold (claim C5) -/

lemma alGet_cons (k' : String) (v : Nat) (m : List (String × Nat))
    (x : String) : alGet ((k', v) :: m) x = if k' = x then v else alGet m x := by
  by_cases h : k' = x <;> simp [alGet, List.find?_cons, h]

lemma alGet_alBump (m : List (String × Nat)) (k x : String) (c : Nat) :
    alGet (alBump m k c) x = alGet m x + (if x = k then c else 0) := by
  induction m with
  | nil =>
      rw [alBump, alGet_cons]
      by_cases h : k = x
      · subst h
        simp [alGet]
      · have h' : ¬ x = k := fun e => h e.symm
        simp [alGet, h, h']
  | cons e rest ih =>
      obtain ⟨k', v⟩ := e
      rw [alBump]
      by_cases hk : k' = k
      · rw [if_pos hk, alGet_cons, alGet_cons]
        by_cases hx : k' = x
        · rw [if_pos hx, if_pos hx, if_pos (show x = k by rw [← hx, hk])]
        · rw [if_neg hx, if_neg hx,
            if_neg (show ¬ x = k from fun e => hx (by rw [hk, ← e]))]
          simp
      · rw [if_neg hk, alGet_cons, alGet_cons]
        by_cases hx : k' = x
        · rw [if_pos hx, if_pos hx,
            if_neg (show ¬ x = k from fun e => hk (by rw [hx, e]))]
          simp
        · rw [if_neg hx, if_neg hx, ih]

lemma foldWordEntryT_total (pol : Option Rat) (tmp : TmpStats) (m : String)
    (c : Nat) :
    (foldWordEntryT pol tmp m c).words_num_total = alBump tmp.words_num_total m c := by
  cases pol with
  | none => rfl
  | some p =>
      by_cases h0 : p = 0 <;> by_cases hp : p > 0 <;>
        simp [foldWordEntryT, h0, hp]

lemma foldWordEntryT_inter (pol : Option Rat) (tmp : TmpStats) (m : String)
    (c : Nat) :
    (foldWordEntryT pol tmp m c).words_num_interactions =
      alBump tmp.words_num_interactions m 1 := by
  cases pol with
  | none => rfl
  | some p =>
      by_cases h0 : p = 0 <;> by_cases hp : p > 0 <;>
        simp [foldWordEntryT, h0, hp]

lemma foldWordEntryT_neu (pol : Option Rat) (tmp : TmpStats) (m : String)
    (c : Nat) :
    (foldWordEntryT pol tmp m c).words_num_neutral_interactions =
      match pol with
      | none => tmp.words_num_neutral_interactions
      | some p => if p = 0 then alBump tmp.words_num_neutral_interactions m 1
          else tmp.words_num_neutral_interactions := by
  cases pol with
  | none => rfl
  | some p =>
      by_cases h0 : p = 0 <;> by_cases hp : p > 0 <;>
        simp [foldWordEntryT, h0, hp]

lemma foldWordEntryT_pos (pol : Option Rat) (tmp : TmpStats) (m : String)
    (c : Nat) :
    (foldWordEntryT pol tmp m c).words_num_positive_interactions =
      match pol with
      | none => tmp.words_num_positive_interactions
      | some p => if p = 0 then tmp.words_num_positive_interactions
          else if p > 0 then alBump tmp.words_num_positive_interactions m 1
          else tmp.words_num_positive_interactions := by
  cases pol with
  | none => rfl
  | some p =>
      by_cases h0 : p = 0 <;> by_cases hp : p > 0 <;>
        simp [foldWordEntryT, h0, hp]

lemma foldWordEntryT_neg (pol : Option Rat) (tmp : TmpStats) (m : String)
    (c : Nat) :
    (foldWordEntryT pol tmp m c).words_num_negative_interactions =
      match pol with
      | none => tmp.words_num_negative_interactions
      | some p => if p = 0 then tmp.words_num_negative_interactions
          else if p > 0 then tmp.words_num_negative_interactions
          else alBump tmp.words_num_negative_interactions m 1 := by
  cases pol with
  | none => rfl
  | some p =>
      by_cases h0 : p = 0 <;> by_cases hp : p > 0 <;>
        simp [foldWordEntryT, h0, hp]

lemma foldWordEntryT_entities (pol : Option Rat) (tmp : TmpStats)
    (m : String) (c : Nat) :
    (foldWordEntryT pol tmp m c).entities = tmp.entities := by
  cases pol with
  | none => rfl
  | some p =>
      by_cases h0 : p = 0 <;> by_cases hp : p > 0 <;>
        simp [foldWordEntryT, h0, hp]

lemma contribTotalE_cons (f : Filters) (m : String) (c : Nat)
    (rest : List (String × Nat)) (x : String) :
    contribTotalE f ((m, c) :: rest) x =
      (if matchIsValid f m && (m == x) then c else 0) + contribTotalE f rest x := by
  unfold contribTotalE entryFilter
  cases h : (matchIsValid f m && (m == x)) <;> simp [List.filter_cons, h] <;> omega

lemma contribInterE_cons (f : Filters) (m : String) (c : Nat)
    (rest : List (String × Nat)) (x : String) :
    contribInterE f ((m, c) :: rest) x =
      (if matchIsValid f m && (m == x) then 1 else 0) + contribInterE f rest x := by
  unfold contribInterE entryFilter
  cases h : (matchIsValid f m && (m == x)) <;> simp [List.filter_cons, h] <;> omega

lemma foldWordsT_spec (f : Filters) (pol : Option Rat) :
    ∀ (entries : List (String × Nat)) (tmp : TmpStats),
      (foldWordsT f pol entries tmp).entities = tmp.entities ∧
      (∀ x, alGet (foldWordsT f pol entries tmp).words_num_total x =
        alGet tmp.words_num_total x + contribTotalE f entries x) ∧
      (∀ x, alGet (foldWordsT f pol entries tmp).words_num_interactions x =
        alGet tmp.words_num_interactions x + contribInterE f entries x) ∧
      (∀ x, alGet (foldWordsT f pol entries tmp).words_num_neutral_interactions x =
        alGet tmp.words_num_neutral_interactions x +
          (match pol with
           | none => 0
           | some p => if p = 0 then contribInterE f entries x else 0)) ∧
      (∀ x, alGet (foldWordsT f pol entries tmp).words_num_positive_interactions x =
        alGet tmp.words_num_positive_interactions x +
          (match pol with
           | none => 0
           | some p => if p = 0 then 0
               else if p > 0 then contribInterE f entries x else 0)) ∧
      (∀ x, alGet (foldWordsT f pol entries tmp).words_num_negative_interactions x =
        alGet tmp.words_num_negative_interactions x +
          (match pol with
           | none => 0
           | some p => if p = 0 then 0
               else if p > 0 then 0 else contribInterE f entries x)) := by
  intro entries
  induction entries with
  | nil =>
      intro tmp
      refine ⟨rfl, ?_, ?_, ?_, ?_, ?_⟩ <;> intro x <;>
        cases pol <;>
          simp [foldWordsT, contribTotalE, contribInterE, entryFilter] <;>
          split_ifs <;> rfl
  | cons e rest ih =>
      intro tmp
      obtain ⟨m, c⟩ := e
      rw [foldWordsT]
      by_cases hv : matchIsValid f m = true
      · rw [if_pos hv]
        obtain ⟨ihe, iht, ihi, ihn, ihp, ihg⟩ := ih (foldWordEntryT pol tmp m c)
        have hbump : ∀ x : String,
            (if matchIsValid f m && (m == x) then c else 0) =
              (if x = m then c else 0) := by
          intro x
          by_cases hxm : x = m
          · have : (m == x) = true := by simp [hxm]
            simp [hv, this, hxm]
          · have : (m == x) = false := by
              simp only [beq_eq_false_iff_ne]
              exact fun e => hxm e.symm
            simp [this, hxm]
        have hbump1 : ∀ x : String,
            (if matchIsValid f m && (m == x) then 1 else 0) =
              (if x = m then 1 else 0) := by
          intro x
          by_cases hxm : x = m
          · have : (m == x) = true := by simp [hxm]
            simp [hv, this, hxm]
          · have : (m == x) = false := by
              simp only [beq_eq_false_iff_ne]
              exact fun e => hxm e.symm
            simp [this, hxm]
        refine ⟨?_, ?_, ?_, ?_, ?_, ?_⟩
        · rw [ihe, foldWordEntryT_entities]
        · intro x
          rw [iht x, foldWordEntryT_total, alGet_alBump, contribTotalE_cons,
            hbump x]
          omega
        · intro x
          rw [ihi x, foldWordEntryT_inter, alGet_alBump, contribInterE_cons,
            hbump1 x]
          omega
        · intro x
          rw [ihn x, foldWordEntryT_neu, contribInterE_cons, hbump1 x]
          cases pol with
          | none => rfl
          | some p =>
              simp [alGet_alBump] <;> split_ifs <;>
                simp [alGet_alBump, *] <;> omega
        · intro x
          rw [ihp x, foldWordEntryT_pos, contribInterE_cons, hbump1 x]
          cases pol with
          | none => rfl
          | some p =>
              simp [alGet_alBump] <;> split_ifs <;>
                simp [alGet_alBump, *] <;> omega
        · intro x
          rw [ihg x, foldWordEntryT_neg, contribInterE_cons, hbump1 x]
          cases pol with
          | none => rfl
          | some p =>
              simp [alGet_alBump] <;> split_ifs <;>
                simp [alGet_alBump, *] <;> omega
      · have hv' : matchIsValid f m = false := by
          cases h : matchIsValid f m
          · rfl
          · exact absurd h hv
        rw [if_neg hv]
        obtain ⟨ihe, iht, ihi, ihn, ihp, ihg⟩ := ih tmp
        have hz : ∀ x : String,
            (if matchIsValid f m && (m == x) then c else 0) = 0 := by
          intro x; simp [hv']
        have hz1 : ∀ x : String,
            (if matchIsValid f m && (m == x) then 1 else 0) = 0 := by
          intro x; simp [hv']
        refine ⟨ihe, ?_, ?_, ?_, ?_, ?_⟩
        · intro x
          rw [iht x, contribTotalE_cons, hz x]
          omega
        · intro x
          rw [ihi x, contribInterE_cons, hz1 x]
          omega
        · intro x
          rw [ihn x, contribInterE_cons, hz1 x]
          cases pol with
          | none => rfl
          | some p =>
              dsimp only
              split_ifs <;> omega
        · intro x
          rw [ihp x, contribInterE_cons, hz1 x]
          cases pol with
          | none => rfl
          | some p =>
              dsimp only
              split_ifs <;> omega
        · intro x
          rw [ihg x, contribInterE_cons, hz1 x]
          cases pol with
          | none => rfl
          | some p =>
              dsimp only
              split_ifs <;> omega

lemma foldResultT_spec (f : Filters) (r : DelegateResult) (s : RunState) :
    (foldResultT f r s).stats = bumpBuckets r.polarity s.stats ∧
    (∀ e : String × String, (foldResultT f r s).tmp.entities.count e =
      s.tmp.entities.count e + r.entities.count e) ∧
    (∀ x, alGet (foldResultT f r s).tmp.words_num_total x =
      alGet s.tmp.words_num_total x + contribTotal f r x) ∧
    (∀ x, alGet (foldResultT f r s).tmp.words_num_interactions x =
      alGet s.tmp.words_num_interactions x + contribInter f r x) ∧
    (∀ x, alGet (foldResultT f r s).tmp.words_num_neutral_interactions x =
      alGet s.tmp.words_num_neutral_interactions x + contribNeu f r x) ∧
    (∀ x, alGet (foldResultT f r s).tmp.words_num_positive_interactions x =
      alGet s.tmp.words_num_positive_interactions x + contribPos f r x) ∧
    (∀ x, alGet (foldResultT f r s).tmp.words_num_negative_interactions x =
      alGet s.tmp.words_num_negative_interactions x + contribNeg f r x) := by
  obtain ⟨he, ht, hi, hn, hp, hg⟩ := foldWordsT_spec f r.polarity r.word_stats
    { s.tmp with entities := s.tmp.entities ++ r.entities }
  refine ⟨rfl, ?_, ht, hi, hn, hp, hg⟩
  intro e
  show (foldWordsT f r.polarity r.word_stats
    { s.tmp with entities := s.tmp.entities ++ r.entities }).entities.count e = _
  rw [he]
  simp [List.count_append]

lemma foldResultsT_spec (f : Filters) : ∀ (l : List DelegateResult)
    (s : RunState),
    (foldResultsT f l s).stats =
      l.foldl (fun st r => bumpBuckets r.polarity st) s.stats ∧
    (∀ e : String × String, (foldResultsT f l s).tmp.entities.count e =
      s.tmp.entities.count e + (l.map (fun r => r.entities.count e)).sum) ∧
    (∀ x, alGet (foldResultsT f l s).tmp.words_num_total x =
      alGet s.tmp.words_num_total x +
        (l.map (fun r => contribTotal f r x)).sum) ∧
    (∀ x, alGet (foldResultsT f l s).tmp.words_num_interactions x =
      alGet s.tmp.words_num_interactions x +
        (l.map (fun r => contribInter f r x)).sum) ∧
    (∀ x, alGet (foldResultsT f l s).tmp.words_num_neutral_interactions x =
      alGet s.tmp.words_num_neutral_interactions x +
        (l.map (fun r => contribNeu f r x)).sum) ∧
    (∀ x, alGet (foldResultsT f l s).tmp.words_num_positive_interactions x =
      alGet s.tmp.words_num_positive_interactions x +
        (l.map (fun r => contribPos f r x)).sum) ∧
    (∀ x, alGet (foldResultsT f l s).tmp.words_num_negative_interactions x =
      alGet s.tmp.words_num_negative_interactions x +
        (l.map (fun r => contribNeg f r x)).sum) := by
  intro l
  induction l with
  | nil =>
      intro s
      refine ⟨rfl, ?_, ?_, ?_, ?_, ?_, ?_⟩ <;> intro _ <;> simp [foldResultsT]
  | cons r rest ih =>
      intro s
      have hstep := foldResultT_spec f r s
      obtain ⟨ihs, ihe, iht, ihi, ihn, ihp, ihg⟩ := ih (foldResultT f r s)
      have hfold : foldResultsT f (r :: rest) s =
          foldResultsT f rest (foldResultT f r s) := rfl
      refine ⟨?_, ?_, ?_, ?_, ?_, ?_, ?_⟩
      · rw [hfold, ihs, hstep.1]
        rfl
      · intro e
        rw [hfold, ihe e, hstep.2.1 e]
        simp
        omega
      · intro x
        rw [hfold, iht x, hstep.2.2.1 x]
        simp
        omega
      · intro x
        rw [hfold, ihi x, hstep.2.2.2.1 x]
        simp
        omega
      · intro x
        rw [hfold, ihn x, hstep.2.2.2.2.1 x]
        simp
        omega
      · intro x
        rw [hfold, ihp x, hstep.2.2.2.2.2.1 x]
        simp
        omega
      · intro x
        rw [hfold, ihg x, hstep.2.2.2.2.2.2 x]
        simp
        omega

lemma bumpBuckets_comm (p q : Option Rat) (st : SubStats) :
    bumpBuckets q (bumpBuckets p st) = bumpBuckets p (bumpBuckets q st) := by
  cases p <;> cases q <;> simp [bumpBuckets] <;> split_ifs <;> rfl

lemma foldWordEntry_ok (p : Rat) (tmp : TmpStats) (m : String) (c : Nat) :
    foldWordEntry (some p) tmp m c =
      Except.ok (foldWordEntryT (some p) tmp m c) := by
  by_cases h0 : p = 0 <;> by_cases hp : p > 0 <;>
    simp [foldWordEntry, foldWordEntryT, h0, hp]

lemma foldWords_ok_some (f : Filters) (p : Rat) :
    ∀ (entries : List (String × Nat)) (tmp : TmpStats),
      foldWords f (some p) entries tmp =
        Except.ok (foldWordsT f (some p) entries tmp) := by
  intro entries
  induction entries with
  | nil => intro tmp; rfl
  | cons e rest ih =>
      intro tmp
      obtain ⟨m, c⟩ := e
      rw [foldWords, foldWordsT]
      by_cases hv : matchIsValid f m = true
      · rw [if_pos hv, if_pos hv, foldWordEntry_ok]
        exact ih (foldWordEntryT (some p) tmp m c)
      · rw [if_neg hv, if_neg hv]
        exact ih tmp

lemma foldWords_ok_invalid (f : Filters) (pol : Option Rat) :
    ∀ (entries : List (String × Nat)),
      (∀ p ∈ entries, matchIsValid f p.1 = false) →
      ∀ tmp : TmpStats, foldWords f pol entries tmp = Except.ok tmp ∧
        foldWordsT f pol entries tmp = tmp := by
  intro entries
  induction entries with
  | nil => intro _ tmp; exact ⟨rfl, rfl⟩
  | cons e rest ih =>
      intro h tmp
      obtain ⟨m, c⟩ := e
      have hm : matchIsValid f m = false := h (m, c) (List.mem_cons_self _ _)
      have hrest := ih (fun p hp => h p (List.mem_cons_of_mem _ hp))
      rw [foldWords, foldWordsT, if_neg (by simp [hm]), if_neg (by simp [hm])]
      exact hrest tmp

lemma finalize_ok (f : Filters) (r : DelegateResult) (s : RunState)
    (h : resultOk f r) :
    finalize_delegate_result f r s = Except.ok (foldResultT f r s) := by
  cases hp : r.polarity with
  | none =>
      rcases h with hps | hnone
      · rw [hp] at hps; simp at hps
      · obtain ⟨h1, h2⟩ := foldWords_ok_invalid f none r.word_stats hnone
          { s.tmp with entities := s.tmp.entities ++ r.entities }
        simp [finalize_delegate_result, foldResultT, hp, h1, h2, bumpBuckets]
  | some p =>
      by_cases h0 : p = 0 <;> by_cases hq : p > 0 <;>
        simp [finalize_delegate_result, foldResultT, hp, h0, hq,
          foldWords_ok_some, bumpBuckets]

lemma foldResults_ok (f : Filters) : ∀ (l : List DelegateResult)
    (s : RunState), (∀ r ∈ l, resultOk f r) →
    foldResults f l s = Except.ok (foldResultsT f l s) := by
  intro l
  induction l with
  | nil => intro s _; rfl
  | cons r rest ih =>
      intro s h
      rw [foldResults, finalize_ok f r s (h r (List.mem_cons_self _ _))]
      exact ih (foldResultT f r s) (fun r' hr' => h r' (List.mem_cons_of_mem _ hr'))

/-- C5, counterexample: two enrichment results carrying one entity each
(`("A","ORG")` and `("B","ORG")`, both ending with count 1).
`Counter.most_common` breaks ties by first-seen order, and the entity
list records results in fold order, so the two completion orders give
`[A, B]` versus `[B, A]` as the final top-entities list — the final
aggregates are not identical. -/
theorem claim_C5_counterexample :
    ((foldResults ⟨[]⟩
        [⟨"b1", [], [("A", "ORG")], none, none⟩,
         ⟨"b2", [], [("B", "ORG")], none, none⟩] initRunState).toOption.map
      (fun s => (finalize_channel s).top_entities)) ≠
    ((foldResults ⟨[]⟩
        [⟨"b2", [], [("B", "ORG")], none, none⟩,
         ⟨"b1", [], [("A", "ORG")], none, none⟩] initRunState).toOption.map
      (fun s => (finalize_channel s).top_entities)) := by
  decide

/-- C5, amended: for a fixed set of cleanly-folding enrichment results
(present polarity, or no filter-passing word match — the others raise,
claim C3), every completion order folds successfully and yields
identical numeric aggregates and identical occurrence-count functions
for the entity table and all five per-word tables.  The top-K *lists*
built from those counts, however, are only determined up to tie order:
ties are broken by first-seen order, which depends on the completion
order (see the counterexample). -/
theorem claim_C5 (filters : Filters) (l₁ l₂ : List DelegateResult)
    (s : RunState) (hperm : l₁.Perm l₂)
    (hok : ∀ r ∈ l₁, resultOk filters r) :
    foldResults filters l₁ s = Except.ok (foldResultsT filters l₁ s) ∧
    foldResults filters l₂ s = Except.ok (foldResultsT filters l₂ s) ∧
    sameAggregates (foldResultsT filters l₁ s) (foldResultsT filters l₂ s) := by
  obtain ⟨hs₁, he₁, ht₁, hi₁, hn₁, hp₁, hg₁⟩ := foldResultsT_spec filters l₁ s
  obtain ⟨hs₂, he₂, ht₂, hi₂, hn₂, hp₂, hg₂⟩ := foldResultsT_spec filters l₂ s
  refine ⟨foldResults_ok filters l₁ s hok,
    foldResults_ok filters l₂ s (fun r hr => hok r (hperm.mem_iff.2 hr)),
    ?_, ?_, ?_, ?_, ?_, ?_, ?_⟩
  · rw [hs₁, hs₂]
    exact hperm.foldl_eq'
      (fun x _ y _ z => bumpBuckets_comm x.polarity y.polarity z) s.stats
  · intro e
    rw [he₁ e, he₂ e, (hperm.map (fun r => r.entities.count e)).sum_eq]
  · intro x
    rw [ht₁ x, ht₂ x, (hperm.map (fun r => contribTotal filters r x)).sum_eq]
  · intro x
    rw [hi₁ x, hi₂ x, (hperm.map (fun r => contribInter filters r x)).sum_eq]
  · intro x
    rw [hn₁ x, hn₂ x, (hperm.map (fun r => contribNeu filters r x)).sum_eq]
  · intro x
    rw [hp₁ x, hp₂ x, (hperm.map (fun r => contribPos filters r x)).sum_eq]
  · intro x
    rw [hg₁ x, hg₂ x, (hperm.map (fun r => contribNeg filters r x)).sum_eq]

/-- C5, witness: two results with opposite polarities and overlapping
word stats, folded in both orders. -/
theorem claim_C5_witness :
    sameAggregates
      (foldResultsT ⟨[]⟩
        [⟨"b1", [("x", 2)], [("A", "ORG")], some 1, some 1⟩,
         ⟨"b2", [("x", 3)], [("B", "ORG")], some (-1), some 0⟩] initRunState)
      (foldResultsT ⟨[]⟩
        [⟨"b2", [("x", 3)], [("B", "ORG")], some (-1), some 0⟩,
         ⟨"b1", [("x", 2)], [("A", "ORG")], some 1, some 1⟩] initRunState) :=
  (claim_C5 ⟨[]⟩
    [⟨"b1", [("x", 2)], [("A", "ORG")], some 1, some 1⟩,
     ⟨"b2", [("x", 3)], [("B", "ORG")], some (-1), some 0⟩]
    [⟨"b2", [("x", 3)], [("B", "ORG")], some (-1), some 0⟩,
     ⟨"b1", [("x", 2)], [("A", "ORG")], some 1, some 1⟩]
    initRunState (by decide)
    (by
      intro r hr
      rcases List.mem_cons.1 hr with h | h
      · exact Or.inl (by rw [h]; rfl)
      · simp at h
        exact Or.inl (by rw [h]; rfl))).2.2

end RedditCollector
